import Mathlib

/-!
Verification of the Trinity IDE request-orchestration workflow.

This file gives a shallow embedding, in Lean 4, of the meaningful logic of
the repository: the data model (`types.ts`), the model-gateway service
(`TrinityService` with its `conduct`, `research` and `validateCode`
operations), the proposal parser embedded in `handleSendMessage`
(`ProjectView.tsx`), the `approveProposal` upsert, and the discard path.
Remote network calls are modelled by an explicit `Gateway` oracle recording
the outcome (`Except`) of each underlying request; nondeterministic fields
of the source records (`Math.random()` ids, `Date.now()` timestamps) are
omitted, since no property below mentions them.  JavaScript strings are
modelled as `List Char` where character-level scanning matters and as
`String` elsewhere.
-/

namespace Trinity

/-! ## Generic JavaScript-style string helpers (on `List Char`) -/

/-- Whitespace recognised by `String.prototype.trim` (ASCII fragment). -/
def isWsChar (c : Char) : Bool :=
  c = ' ' || c = '\t' || c = '\n' || c = '\r'

/-- Model of JavaScript `s.trim()`. -/
def trimL (s : List Char) : List Char :=
  ((s.dropWhile isWsChar).reverse.dropWhile isWsChar).reverse

/-- Model of JavaScript `hay.includes(pat)` / an unanchored regex literal:
substring containment. -/
def containsSub (pat : List Char) : List Char → Bool
  | [] => pat.isEmpty
  | c :: rest => pat.isPrefixOf (c :: rest) || containsSub pat rest

/-- Split a list at the first occurrence of `pat`, returning the part before
the occurrence and the part after it.  `none` when `pat` does not occur.
This is the primitive under the lazy regex capture used by the proposal
parser. -/
def splitFirst (pat : List Char) : List Char → Option (List Char × List Char)
  | [] => if pat = [] then some ([], []) else none
  | c :: rest =>
    if pat.isPrefixOf (c :: rest) then
      some ([], (c :: rest).drop pat.length)
    else
      (splitFirst pat rest).map (fun p => (c :: p.1, p.2))

/-- Model of JavaScript `s.split(sep)` for a single-character separator:
always returns at least one (possibly empty) piece. -/
def jsSplit (sep : Char) : List Char → List (List Char)
  | [] => [[]]
  | c :: rest =>
    let r := jsSplit sep rest
    if c = sep then [] :: r
    else
      match r with
      | [] => [[c]]
      | h :: t => (c :: h) :: t

/-- Lowercase a character sequence, modelling the `/i` regex flag. -/
def lowerL (s : List Char) : List Char := s.map Char.toLower

/-! ## JSON values and a model of ECMAScript JSON.parse

The proposal parser in `handleSendMessage` calls the platform builtin
`JSON.parse` on the captured block.  `JSON.parse` is not part of this
repository, so it is embedded here as a standard recursive-descent parser
of the JSON grammar (ECMA-404).  Numbers are kept as their lexemes, and
object fields are kept in source order with last-occurrence lookup,
matching JavaScript object-literal assignment semantics. -/

inductive Json where
  | null
  | bool (b : Bool)
  | num (lexeme : List Char)
  | str (s : List Char)
  | arr (elems : List Json)
  | obj (fields : List (List Char × Json))

/-- Left-brace character, written by code point. -/
def lbraceChar : Char := Char.ofNat 123

/-- Right-brace character, written by code point. -/
def rbraceChar : Char := Char.ofNat 125

/-- JSON whitespace (space, tab, line feed, carriage return). -/
def isJsonWs (c : Char) : Bool :=
  c = ' ' || c = '\t' || c = '\n' || c = '\r'

def skipWs (s : List Char) : List Char := s.dropWhile isJsonWs

def parseHexDigit (c : Char) : Option Nat :=
  if '0' ≤ c ∧ c ≤ '9' then some (c.toNat - 48)
  else if 'a' ≤ c ∧ c ≤ 'f' then some (c.toNat - 87)
  else if 'A' ≤ c ∧ c ≤ 'F' then some (c.toNat - 55)
  else none

/-- Decode a single-character JSON string escape. -/
def decodeEsc (e : Char) : Option Char :=
  if e = '\"' then some '\"'
  else if e = '\\' then some '\\'
  else if e = '/' then some '/'
  else if e = 'b' then some (Char.ofNat 8)
  else if e = 'f' then some (Char.ofNat 12)
  else if e = 'n' then some '\n'
  else if e = 'r' then some '\r'
  else if e = 't' then some '\t'
  else none

/-- Parse the body of a JSON string after its opening quote, up to and
including the closing quote.  Returns the decoded characters and the
remaining input. -/
def parseStrBody : Nat → List Char → Option (List Char × List Char)
  | 0, _ => none
  | _+1, [] => none
  | fuel+1, c :: rest =>
    if c = '\"' then some ([], rest)
    else if c = '\\' then
      match rest with
      | 'u' :: h1 :: h2 :: h3 :: h4 :: rest2 =>
        match parseHexDigit h1, parseHexDigit h2, parseHexDigit h3, parseHexDigit h4 with
        | some a, some b, some c2, some d =>
          (parseStrBody fuel rest2).map
            (fun p => (Char.ofNat (((a * 16 + b) * 16 + c2) * 16 + d) :: p.1, p.2))
        | _, _, _, _ => none
      | e :: rest2 =>
        match decodeEsc e with
        | some d => (parseStrBody fuel rest2).map (fun p => (d :: p.1, p.2))
        | none => none
      | [] => none
    else if c.toNat < 32 then none
    else (parseStrBody fuel rest).map (fun p => (c :: p.1, p.2))

/-- Parse the optional fraction part of a JSON number. -/
def parseFrac (s : List Char) : Option (List Char × List Char) :=
  match s with
  | '.' :: rest =>
    let ds := rest.takeWhile Char.isDigit
    if ds = [] then none else some ('.' :: ds, rest.dropWhile Char.isDigit)
  | _ => some ([], s)

/-- Parse the optional exponent part of a JSON number. -/
def parseExp (s : List Char) : Option (List Char × List Char) :=
  match s with
  | [] => some ([], [])
  | c :: rest =>
    if c = 'e' ∨ c = 'E' then
      let sg : List Char × List Char :=
        match rest with
        | '+' :: t => (['+'], t)
        | '-' :: t => (['-'], t)
        | _ => ([], rest)
      let ds := sg.2.takeWhile Char.isDigit
      if ds = [] then none else some (c :: (sg.1 ++ ds), sg.2.dropWhile Char.isDigit)
    else some ([], c :: rest)

/-- Parse a JSON number lexeme (sign, integer part with no leading zero,
optional fraction, optional exponent). -/
def parseNumLex (s : List Char) : Option (List Char × List Char) :=
  let sgn : List Char × List Char :=
    match s with
    | '-' :: t => (['-'], t)
    | _ => ([], s)
  match sgn.2 with
  | [] => none
  | c :: rest =>
    let ipart : Option (List Char × List Char) :=
      if c = '0' then some (sgn.1 ++ ['0'], rest)
      else if c.isDigit then
        some (sgn.1 ++ [c] ++ rest.takeWhile Char.isDigit, rest.dropWhile Char.isDigit)
      else none
    match ipart with
    | none => none
    | some (ilex, r1) =>
      match parseFrac r1 with
      | none => none
      | some (flex, r2) =>
        match parseExp r2 with
        | none => none
        | some (elex, r3) => some (ilex ++ flex ++ elex, r3)

mutual

/-- Parse one JSON value (no leading whitespace). -/
def parseValue : Nat → List Char → Option (Json × List Char)
  | 0, _ => none
  | _+1, [] => none
  | _+1, 't' :: 'r' :: 'u' :: 'e' :: r => some (.bool true, r)
  | _+1, 'f' :: 'a' :: 'l' :: 's' :: 'e' :: r => some (.bool false, r)
  | _+1, 'n' :: 'u' :: 'l' :: 'l' :: r => some (.null, r)
  | fuel+1, c :: rest =>
    if c = '\"' then
      (parseStrBody (rest.length + 1) rest).map (fun p => (.str p.1, p.2))
    else if c = lbraceChar then
      let s1 := skipWs rest
      match s1 with
      | c2 :: r2 =>
        if c2 = rbraceChar then some (.obj [], r2)
        else parseMembers fuel s1 []
      | [] => none
    else if c = '[' then
      let s1 := skipWs rest
      match s1 with
      | c2 :: r2 =>
        if c2 = ']' then some (.arr [], r2)
        else parseElems fuel s1 []
      | [] => none
    else if c = '-' || c.isDigit then
      (parseNumLex (c :: rest)).map (fun p => (.num p.1, p.2))
    else none

/-- Parse the members of a JSON object after at least one member is known
to follow (input already whitespace-skipped). -/
def parseMembers : Nat → List Char → List (List Char × Json) → Option (Json × List Char)
  | 0, _, _ => none
  | _+1, [], _ => none
  | fuel+1, c :: rest, acc =>
    if c = '\"' then
      match parseStrBody (rest.length + 1) rest with
      | none => none
      | some (key, r1) =>
        match skipWs r1 with
        | ':' :: r2 =>
          match parseValue fuel (skipWs r2) with
          | none => none
          | some (v, r3) =>
            match skipWs r3 with
            | c2 :: r4 =>
              if c2 = ',' then parseMembers fuel (skipWs r4) (acc ++ [(key, v)])
              else if c2 = rbraceChar then some (.obj (acc ++ [(key, v)]), r4)
              else none
            | [] => none
        | _ => none
    else none

/-- Parse the elements of a JSON array after at least one element is known
to follow (input already whitespace-skipped). -/
def parseElems : Nat → List Char → List Json → Option (Json × List Char)
  | 0, _, _ => none
  | fuel+1, s, acc =>
    match parseValue fuel s with
    | none => none
    | some (v, r1) =>
      match skipWs r1 with
      | c :: r2 =>
        if c = ',' then parseElems fuel (skipWs r2) (acc ++ [v])
        else if c = ']' then some (.arr (acc ++ [v]), r2)
        else none
      | [] => none

end

/-- Model of `JSON.parse`: parse a complete JSON text, rejecting trailing
content; `none` models a thrown `SyntaxError`. -/
def jsonParse (s : List Char) : Option Json :=
  match parseValue (s.length + 1) (skipWs s) with
  | some (j, rest) => if skipWs rest = [] then some j else none
  | none => none

/-- Property lookup on a parsed JSON value, as JavaScript property access:
only objects have properties, later duplicate keys overwrite earlier
ones. -/
def Json.lookup (j : Json) (key : List Char) : Option Json :=
  match j with
  | .obj fields => fields.foldl (fun acc kv => if kv.1 = key then some kv.2 else acc) none
  | _ => none

end Trinity

namespace Trinity

/-! ## Proposal parser (`handleSendMessage`, ProjectView.tsx lines 70-97)

The source matches the response against the lazy regex
for a fenced json block, takes the first match, `JSON.parse`s the capture,
and accepts it only when `data.action === 'propose_code'`; any parse
failure is swallowed.  The proposal object is built from `data.fileName`,
`data.content`, `data.description` with no runtime type check, so the
fields are modelled as optional JSON values (absent property =
`undefined`). -/

/-- Opening tag of the fenced block recognised by the regex. -/
def fenceOpen : List Char := "```json\n".data

/-- Closing tag of the fenced block recognised by the regex. -/
def fenceClose : List Char := "\n```".data

/-- Capture of the first fenced json block: the leftmost occurrence of the
opening tag, then the shortest stretch up to the next closing tag (lazy
capture).  Equivalent to the source regex match. -/
def extractBlock (s : List Char) : Option (List Char) :=
  match splitFirst fenceOpen s with
  | none => none
  | some (_, rest) =>
    match splitFirst fenceClose rest with
    | none => none
    | some (body, _) => some body

def actionKey : List Char := "action".data
def fileNameKey : List Char := "fileName".data
def contentKey : List Char := "content".data
def descriptionKey : List Char := "description".data
def proposeTag : List Char := "propose_code".data

/-- Runtime shape of a parsed proposal: the three properties read off the
parsed JSON object, each possibly absent. -/
structure ParsedProposal where
  fileName : Option Json
  content : Option Json
  description : Option Json

/-- The strict-equality check `data.action === 'propose_code'` on the
parsed JSON value. -/
def actionIsPropose (data : Json) : Bool :=
  match data.lookup actionKey with
  | some (.str a) => a = proposeTag
  | _ => false

/-- The proposal parser of `handleSendMessage`: first fenced json block,
`JSON.parse`, `action` check; total, every failure yields `none`. -/
def parseProposalL (s : List Char) : Option ParsedProposal :=
  match extractBlock s with
  | none => none
  | some body =>
    match jsonParse body with
    | none => none
    | some data =>
      if actionIsPropose data then
        some ⟨data.lookup fileNameKey, data.lookup contentKey, data.lookup descriptionKey⟩
      else none

/-- String-level entry point of the proposal parser. -/
def parseProposal (response : String) : Option ParsedProposal :=
  parseProposalL response.data

end Trinity

namespace Trinity

/-! ## Data model (`types.ts`)

Record fields `id` and `timestamp`/`createdAt` are produced by
`Math.random()` and `Date.now()` in the source; they are nondeterministic
tokens no claim mentions and are omitted from the embedded records. -/

inductive AgentRole where
  | conductor
  | researchLead
  | specializedResearcher
  | coder
  | validator
  | system
deriving DecidableEq

inductive Severity where
  | info
  | success
  | warning
  | error
deriving DecidableEq

structure ActivityLog where
  agent : AgentRole
  message : String
  type : Severity

inductive ChatRole where
  | user
  | assistant
  | system
deriving DecidableEq

structure ChatMessage where
  role : ChatRole
  content : String
  pendingChange : Option ParsedProposal

structure ProjectFile where
  name : String
  content : String
  language : String

structure Project where
  id : String
  name : String
  files : List ProjectFile
  createdAt : Nat

structure SystemConfig where
  conductorModel : String
  researchModel : String
  coderModel : String
  validatorModel : String
  searchEngineId : Option String

/-- Typed proposal record as declared in `types.ts` (`CodeProposal`). -/
structure CodeProposal where
  fileName : String
  content : String
  description : String

structure GroundingSource where
  title : String
  uri : String

/-! ## Model gateway (`TrinityService`, src/unnamed/part_001)

Each remote `ai.models.generateContent` call is replaced by an oracle of
type `Except String _` recording whether the transport call threw (with
its error message) or returned a response.  The service methods below
reproduce the source's log emissions and error handling around that
oracle. -/

inductive Mode where
  | precision
  | speed
deriving DecidableEq

/-- Model selection in `TrinityService.conduct` (part_001 line 20). -/
def chooseModel (mode : Mode) (config : SystemConfig) : String :=
  if mode = .precision then config.conductorModel else "gemini-flash-lite-latest"

/-- Extended-reasoning budget attached to the `conduct` request
(part_001 lines 52-56): only in precision mode, only for model
identifiers containing "pro", "gemini-3" or "gemini-2.5"; the "pro"
family gets the larger tier. -/
def thinkingBudget (mode : Mode) (config : SystemConfig) : Option Nat :=
  let model := chooseModel mode config
  if mode = .precision &&
      (containsSub "pro".data model.data ||
       containsSub "gemini-3".data model.data ||
       containsSub "gemini-2.5".data model.data) then
    some (if containsSub "pro".data model.data then 32768 else 24576)
  else none

/-- Request shape of the `conduct` call: selected model plus optional
thinking budget. -/
structure ConductRequest where
  model : String
  budget : Option Nat

def conductRequest (mode : Mode) (config : SystemConfig) : ConductRequest :=
  ⟨chooseModel mode config, thinkingBudget mode config⟩

/-- Outcomes of the three remote calls a single turn can make. -/
structure Gateway where
  conductOutcome : Except String String
  researchOutcome : Except String (String × List GroundingSource)
  validateOutcome : Except String String

namespace TrinityService

/-- The `conduct` operation: emits the initiation log, then either returns
the response text or emits the API-exception error log and rethrows
(part_001 lines 10-76).  The first component is the list of log entries
appended, the second the result (`.error` = the call threw). -/
def conduct (outcome : Except String String) (mode : Mode) (config : SystemConfig) :
    List ActivityLog × Except String String :=
  let model := chooseModel mode config
  let kind := if mode = .precision then "High-Reasoning" else "High-Speed"
  let initiation : ActivityLog :=
    ⟨.conductor, "Initiating " ++ kind ++ " orchestration via " ++ model ++ "...", .info⟩
  match outcome with
  | .ok text => ([initiation], .ok text)
  | .error e => ([initiation, ⟨.conductor, "API Exception: " ++ e, .error⟩], .error e)

/-- The `research` operation: never throws; a transport failure is replaced
by the fixed apology text with no sources (part_001 lines 78-114). -/
def research (outcome : Except String (String × List GroundingSource)) (query : String) :
    List ActivityLog × (String × List GroundingSource) :=
  let trigger : ActivityLog :=
    ⟨.researchLead, "Triggering technical search grounding for: " ++ query, .info⟩
  match outcome with
  | .ok r => ([trigger, ⟨.specializedResearcher, "Grounding complete. Key findings identified.", .success⟩], r)
  | .error _ =>
    ([trigger],
     ("Research swarm was unable to reach the web. Proceeding with internal knowledge base.", []))

/-- The `validateCode` operation: never throws; a transport failure is
replaced by the fixed timed-out report (part_001 lines 116-137). -/
def validateCode (outcome : Except String String) :
    List ActivityLog × String :=
  let performing : ActivityLog :=
    ⟨.validator, "Performing logical validation on generated artifacts...", .info⟩
  match outcome with
  | .ok text => ([performing], text)
  | .error _ => ([performing], "Validation node timed out. Manual review highly recommended.")

end TrinityService

end Trinity

namespace Trinity

/-! ## Orchestrator (`ProjectView.tsx`)

`handleSendMessage` is embedded as a pure transition on the component
state, parameterized by the `Gateway` oracle; it additionally returns the
ordered trace of remote calls issued during the turn.  The prompt strings
built for the remote calls are carried on the trace events; the remote
responses themselves come from the oracle. -/

/-- Keyword heuristic deciding whether research is needed
(ProjectView.tsx line 58): case-insensitive substring test. -/
def researchKeywords : List (List Char) :=
  ["research".data, "search".data, "find".data, "documentation".data,
   "info".data, "who is".data, "what is".data]

def needsResearch (input : String) : Bool :=
  researchKeywords.any (fun kw => containsSub kw (lowerL input.data))

inductive CallEvent where
  | research (query : String)
  | conduct (prompt : String)
  | validate

inductive CallKind where
  | research
  | conduct
  | validate
deriving DecidableEq

def CallEvent.kind : CallEvent → CallKind
  | .research _ => .research
  | .conduct _ => .conduct
  | .validate => .validate

/-- Component state of `ProjectView` relevant to the orchestration
workflow, together with the append-only activity log owned by `App`
(reached through `onAddLog`). -/
structure ViewState where
  messages : List ChatMessage
  isProcessing : Bool
  aiMode : Mode
  pendingProposal : Option ParsedProposal
  validationReport : Option String
  researchSources : List GroundingSource
  activity : List ActivityLog
  project : Project

/-- Research phase of a turn (ProjectView.tsx lines 57-66): on a matching
input, one `research` call whose findings are spliced ahead of the
original request; otherwise the prompt is the raw input. -/
structure TurnPrep where
  logs : List ActivityLog
  prompt : String
  sources : List GroundingSource
  events : List CallEvent

def researchStep (g : Gateway) (input : String) : TurnPrep :=
  if needsResearch input then
    let r := TrinityService.research g.researchOutcome input
    ⟨r.1, "Research Findings:\n" ++ r.2.1 ++ "\n\nOriginal Request: " ++ input,
     r.2.2, [.research input]⟩
  else ⟨[], input, [], []⟩

/-- One orchestrator turn (ProjectView.tsx lines 40-120).  Returns the
updated state and the trace of remote calls in issue order. -/
def handleSendMessage (g : Gateway) (config : SystemConfig) (input : String)
    (s : ViewState) : ViewState × List CallEvent :=
  if (trimL input.data).isEmpty || s.isProcessing then (s, [])
  else
    let s1 : ViewState :=
      { s with messages := s.messages ++ [⟨.user, input, none⟩],
               isProcessing := true,
               validationReport := none }
    let prep := researchStep g input
    let s2 : ViewState :=
      { s1 with activity := s1.activity ++ prep.logs,
                researchSources := prep.sources ++ s1.researchSources }
    let c := TrinityService.conduct g.conductOutcome s.aiMode config
    let s3 : ViewState := { s2 with activity := s2.activity ++ c.1 }
    let events := prep.events ++ [.conduct prep.prompt]
    match c.2 with
    | .error e =>
      ({ s3 with
          activity := s3.activity ++ [⟨.conductor, "Cluster Error: " ++ e, .error⟩],
          isProcessing := false },
       events)
    | .ok response =>
      let content := if response = "" then "Cluster returned empty response." else response
      match parseProposalL response.data with
      | some p =>
        let v := TrinityService.validateCode g.validateOutcome
        ({ s3 with
            activity := s3.activity ++ v.1 ++
              [⟨.validator, "Artifact check complete. Health: OPTIMAL.", .success⟩],
            validationReport := some v.2,
            messages := s3.messages ++ [⟨.assistant, content, some p⟩],
            pendingProposal := some p,
            isProcessing := false },
         events ++ [.validate])
      | none =>
        ({ s3 with
            messages := s3.messages ++ [⟨.assistant, content, none⟩],
            isProcessing := false },
         events)

/-- Language tag derived in `approveProposal`
(ProjectView.tsx line 129): `fileName.split('.').pop() || 'txt'`. -/
def languageOf (fileName : String) : String :=
  let lastPart := (jsSplit '.' fileName.data).getLastD []
  if lastPart = [] then "txt" else String.mk lastPart

/-- File-mapping part of `approveProposal` (ProjectView.tsx lines 122-133):
replace the first file with the proposal's name, or append a new one. -/
def approveFiles (files : List ProjectFile) (p : CodeProposal) : List ProjectFile :=
  let newFile : ProjectFile := ⟨p.fileName, p.content, languageOf p.fileName⟩
  match files.findIdx? (fun f => f.name == p.fileName) with
  | some i => files.set i newFile
  | none => files ++ [newFile]

/-- Discard path: both the Discard Artifact button (line 426) and the
modal close button (line 384) run exactly `setPendingProposal(null)`. -/
def discardProposal (s : ViewState) : ViewState :=
  { s with pendingProposal := none }

end Trinity

namespace Trinity

/-- Language-tag rule exactly as claim C10 words it (spec-claimed
behaviour, for comparison with the source-derived `languageOf`): the
substring after the last dot; the entire fileName when it has no dot; and
"txt" only for the empty fileName. -/
def claimedLanguageTag (f : String) : String :=
  if f = "" then "txt"
  else if f.data.contains '.' then
    String.mk ((f.data.reverse.takeWhile (fun c => c != '.')).reverse)
  else f

/-! ## Concrete fixtures used by witnesses and counterexamples -/

def sampleProject : Project :=
  ⟨"p1", "DEMO", [⟨"main.ts", "let a = 1;", "ts"⟩], 0⟩

def sampleConfig : SystemConfig :=
  ⟨"gemini-3-pro-preview", "gemini-3-flash-preview", "gemini-3-pro-preview",
   "gemini-3-pro-preview", some ""⟩

def sampleState : ViewState :=
  ⟨[], false, .precision, none, some "stale report", [], [], sampleProject⟩

/-- State with a proposal already pending, for the replacement witness. -/
def samplePendingState : ViewState :=
  ⟨[], false, .precision, some ⟨some (.str "old.ts".data), none, none⟩,
   some "stale report", [], [], sampleProject⟩

def errGateway : Gateway :=
  ⟨.error "network down", .error "offline", .error "offline"⟩

def okGateway (response : String) : Gateway :=
  ⟨.ok response, .ok ("findings", [⟨"t", "u"⟩]), .ok "LGTM"⟩

/-- Gateway whose research and validation transports both fail while the
conversation call succeeds. -/
def degradedGateway (response : String) : Gateway :=
  ⟨.ok response, .error "offline", .error "offline"⟩

/-- Response carrying a well-formed structured proposal block. -/
def proposalResponse : String :=
  "Sure.\n```json\n\x7b \"action\": \"propose_code\", \"fileName\": \"utils.ts\", \"content\": \"export const x = 1;\", \"description\": \"adds x\" \x7d\n```\nDone."

/-- The proposal the block in `proposalResponse` denotes. -/
def proposalParsed : ParsedProposal :=
  ⟨some (.str "utils.ts".data), some (.str "export const x = 1;".data),
   some (.str "adds x".data)⟩

/-- The fenced block body inside `proposalResponse`, as characters. -/
def blockBody : List Char :=
  "\x7b \"action\": \"propose_code\", \"fileName\": \"utils.ts\", \"content\": \"export const x = 1;\", \"description\": \"adds x\" \x7d".data

/-- The JSON value that `blockBody` parses to. -/
def blockJson : Json :=
  .obj [("action".data, .str "propose_code".data),
        ("fileName".data, .str "utils.ts".data),
        ("content".data, .str "export const x = 1;".data),
        ("description".data, .str "adds x".data)]

/-- A well-formed block whose action is not the propose-code tag. -/
def otherBody : List Char := "\x7b \"action\": \"other\" \x7d".data

/-- The JSON value that `otherBody` parses to. -/
def otherJson : Json := .obj [("action".data, .str "other".data)]

/-! ## Theorems -/

/-- C9: in speed mode the `conduct` call always targets the fixed model
"gemini-flash-lite-latest", ignoring the configured conductor model; the
configured `conductorModel` is used exactly when the mode is precision. -/
theorem speed_mode_ignores_conductor_model (config : SystemConfig) :
    chooseModel .speed config = "gemini-flash-lite-latest" ∧
    chooseModel .precision config = config.conductorModel :=
  ⟨rfl, rfl⟩

/-- C7: the `conduct` request carries an extended-reasoning budget exactly
in precision mode on a model identifier containing "pro", "gemini-3" or
"gemini-2.5"; the "pro" family gets the larger tier 32768, the other
qualifying identifiers the smaller tier 24576; speed mode never attaches
a budget. -/
theorem thinking_budget_spec (config : SystemConfig) :
    (conductRequest .speed config).budget = none ∧
    (containsSub "pro".data config.conductorModel.data = true →
      (conductRequest .precision config).budget = some 32768) ∧
    (containsSub "pro".data config.conductorModel.data = false →
      (containsSub "gemini-3".data config.conductorModel.data = true ∨
       containsSub "gemini-2.5".data config.conductorModel.data = true) →
      (conductRequest .precision config).budget = some 24576) ∧
    (containsSub "pro".data config.conductorModel.data = false →
     containsSub "gemini-3".data config.conductorModel.data = false →
     containsSub "gemini-2.5".data config.conductorModel.data = false →
      (conductRequest .precision config).budget = none) := by
  refine ⟨rfl, ?_, ?_, ?_⟩
  · intro h
    simp [conductRequest, thinkingBudget, chooseModel, h]
  · intro h hq
    rcases hq with hq | hq <;> simp [conductRequest, thinkingBudget, chooseModel, h, hq]
  · intro h1 h2 h3
    simp [conductRequest, thinkingBudget, chooseModel, h1, h2, h3]

/-- Witness for `thinking_budget_spec` at the repository's default
configuration ("gemini-3-pro-preview"), a non-pro qualifying identifier,
and a non-qualifying identifier. -/
theorem thinking_budget_spec_witness :
    (conductRequest .precision ⟨"gemini-3-pro-preview", "m", "m", "m", none⟩).budget
        = some 32768 ∧
    (conductRequest .precision ⟨"gemini-2.5-flash", "m", "m", "m", none⟩).budget
        = some 24576 ∧
    (conductRequest .precision ⟨"claude", "m", "m", "m", none⟩).budget = none :=
  ⟨(thinking_budget_spec _).2.1 (by decide),
   (thinking_budget_spec _).2.2.1 (by decide) (Or.inr (by decide)),
   (thinking_budget_spec _).2.2.2 (by decide) (by decide) (by decide)⟩

end Trinity

namespace Trinity

/-! ### Characterization lemmas for `handleSendMessage` -/

theorem handleSendMessage_noop (g : Gateway) (config : SystemConfig) (input : String)
    (s : ViewState) (h : (trimL input.data).isEmpty = true ∨ s.isProcessing = true) :
    handleSendMessage g config input s = (s, []) := by
  unfold handleSendMessage
  rcases h with h | h <;> rw [h] <;> simp

theorem handleSendMessage_error_char (g : Gateway) (config : SystemConfig) (input : String)
    (s : ViewState) (e : String)
    (hin : (trimL input.data).isEmpty = false) (hproc : s.isProcessing = false)
    (hg : g.conductOutcome = .error e) :
    handleSendMessage g config input s =
      ({ s with
          messages := s.messages ++ [⟨.user, input, none⟩],
          isProcessing := false,
          validationReport := none,
          researchSources := (researchStep g input).sources ++ s.researchSources,
          activity := s.activity ++ (researchStep g input).logs ++
            [⟨.conductor,
              "Initiating " ++
                (if s.aiMode = .precision then "High-Reasoning" else "High-Speed") ++
                " orchestration via " ++ chooseModel s.aiMode config ++ "...", .info⟩,
             ⟨.conductor, "API Exception: " ++ e, .error⟩,
             ⟨.conductor, "Cluster Error: " ++ e, .error⟩] },
       (researchStep g input).events ++ [.conduct (researchStep g input).prompt]) := by
  unfold handleSendMessage TrinityService.conduct
  rw [hin, hproc, hg]
  simp

theorem handleSendMessage_ok_char (g : Gateway) (config : SystemConfig) (input : String)
    (s : ViewState) (response : String)
    (hin : (trimL input.data).isEmpty = false) (hproc : s.isProcessing = false)
    (hg : g.conductOutcome = .ok response) :
    ((handleSendMessage g config input s).1.messages =
        s.messages ++ [⟨.user, input, none⟩,
          ⟨.assistant, (if response = "" then "Cluster returned empty response." else response),
            parseProposalL response.data⟩]) ∧
    ((handleSendMessage g config input s).1.pendingProposal =
      (match parseProposalL response.data with
       | some p => some p
       | none => s.pendingProposal)) := by
  unfold handleSendMessage TrinityService.conduct
  rw [hin, hproc, hg]
  cases hp : parseProposalL response.data <;> simp [hp]

theorem handleSendMessage_project_invariant (g : Gateway) (config : SystemConfig)
    (input : String) (s : ViewState) :
    (handleSendMessage g config input s).1.project = s.project := by
  unfold handleSendMessage
  split
  · rfl
  · cases hc : (TrinityService.conduct g.conductOutcome s.aiMode config).2 with
    | error e => simp [hc]
    | ok response =>
      cases hp : parseProposalL response.data <;> simp [hc, hp]

theorem handleSendMessage_events_char (g : Gateway) (config : SystemConfig) (input : String)
    (s : ViewState)
    (hin : (trimL input.data).isEmpty = false) (hproc : s.isProcessing = false) :
    (handleSendMessage g config input s).2 =
      (researchStep g input).events ++ [.conduct (researchStep g input).prompt] ++
      (match g.conductOutcome with
       | .ok response =>
         (match parseProposalL response.data with
          | some _ => [CallEvent.validate]
          | none => [])
       | .error _ => []) := by
  unfold handleSendMessage TrinityService.conduct
  rw [hin, hproc]
  cases hg : g.conductOutcome with
  | error e => simp
  | ok response => cases hp : parseProposalL response.data <;> simp [hp]

end Trinity

namespace Trinity

/-- Logs emitted by the research step are never error-severity (they are
the info trigger entry and, on success, the success grounding entry). -/
theorem researchStep_logs_no_error (g : Gateway) (input : String) :
    ((researchStep g input).logs).filter (fun l => l.type == Severity.error) = [] := by
  unfold researchStep TrinityService.research
  split
  · cases g.researchOutcome <;> simp
  · simp

/-- C2 (amended): when the primary conversation call throws, the turn
aborts: the user message is the only chat message appended (so no
assistant message), the pending proposal is unchanged, and exactly two
error-severity activity entries are appended, both with agent Conductor —
the gateway's own "API Exception" entry and the orchestrator's
"Cluster Error" entry.  The claim as frozen predicts exactly one such
entry; `conduct_failure_single_error_entry_false` refutes that count. -/
theorem conduct_failure_aborts_turn
    (g : Gateway) (config : SystemConfig) (input : String) (s : ViewState) (e : String)
    (hin : (trimL input.data).isEmpty = false) (hproc : s.isProcessing = false)
    (hg : g.conductOutcome = .error e) :
    ((handleSendMessage g config input s).1.messages = s.messages ++ [⟨.user, input, none⟩]) ∧
    ((handleSendMessage g config input s).1.pendingProposal = s.pendingProposal) ∧
    (((handleSendMessage g config input s).1.activity.drop s.activity.length).filter
        (fun l => l.type == Severity.error) =
      [⟨.conductor, "API Exception: " ++ e, .error⟩,
       ⟨.conductor, "Cluster Error: " ++ e, .error⟩]) := by
  rw [handleSendMessage_error_char g config input s e hin hproc hg]
  refine ⟨rfl, rfl, ?_⟩
  rw [List.append_assoc, List.drop_left, List.filter_append,
      researchStep_logs_no_error]
  rfl

end Trinity

namespace Trinity

/-- Witness for `conduct_failure_aborts_turn` at a concrete failing turn. -/
theorem conduct_failure_aborts_turn_witness :
    ((handleSendMessage errGateway sampleConfig "hello" sampleState).1.messages =
      sampleState.messages ++ [⟨.user, "hello", none⟩]) ∧
    ((handleSendMessage errGateway sampleConfig "hello" sampleState).1.pendingProposal =
      sampleState.pendingProposal) ∧
    (((handleSendMessage errGateway sampleConfig "hello" sampleState).1.activity.drop
        sampleState.activity.length).filter (fun l => l.type == Severity.error) =
      [⟨.conductor, "API Exception: " ++ "network down", .error⟩,
       ⟨.conductor, "Cluster Error: " ++ "network down", .error⟩]) :=
  conduct_failure_aborts_turn errGateway sampleConfig "hello" sampleState "network down"
    (by decide) rfl rfl

/-- Counterexample to C2 as frozen: on a concrete failing turn starting
from an empty activity log, the number of error-severity entries appended
is two, not one. -/
theorem conduct_failure_single_error_entry_false :
    ¬ (((handleSendMessage errGateway sampleConfig "hello" sampleState).1.activity.filter
          (fun l => l.type == Severity.error)).length = 1) := by
  decide

/-- C8: the pending proposal is a single optional slot; a turn whose
response parses to a proposal ends with exactly that proposal pending
(silently replacing any previous one), and no turn ever modifies the
project (in particular its workspace file mapping). -/
theorem pending_replacement_spec :
    (∀ g config input s, (handleSendMessage g config input s).1.project = s.project) ∧
    (∀ g config input s response p,
      (trimL input.data).isEmpty = false → s.isProcessing = false →
      g.conductOutcome = .ok response → parseProposalL response.data = some p →
      (handleSendMessage g config input s).1.pendingProposal = some p) := by
  refine ⟨fun g config input s => handleSendMessage_project_invariant g config input s, ?_⟩
  intro g config input s response p hin hproc hok hp
  have h := (handleSendMessage_ok_char g config input s response hin hproc hok).2
  rw [h, hp]

set_option maxRecDepth 40000 in
/-- Witness for `pending_replacement_spec`: a turn from a state with an
older pending proposal ends with the new proposal pending, and the
project untouched. -/
theorem pending_replacement_spec_witness :
    ((handleSendMessage (okGateway proposalResponse) sampleConfig "hello"
        samplePendingState).1.project = samplePendingState.project) ∧
    ((handleSendMessage (okGateway proposalResponse) sampleConfig "hello"
        samplePendingState).1.pendingProposal = some proposalParsed) :=
  ⟨pending_replacement_spec.1 _ _ _ _,
   pending_replacement_spec.2 (okGateway proposalResponse) sampleConfig "hello"
     samplePendingState proposalResponse proposalParsed (by decide) rfl rfl (by rfl)⟩

/-- C6: a transport failure of the research call is absorbed into the
fixed apology text with an empty source list; a transport failure of the
validation call is absorbed into the fixed timed-out report; and a turn
in which both of those transports fail still runs to completion,
appending the assistant message after the user message. -/
theorem degraded_fallback_spec :
    (∀ e query, (TrinityService.research (.error e) query).2 =
      ("Research swarm was unable to reach the web. Proceeding with internal knowledge base.",
       [])) ∧
    (∀ e, (TrinityService.validateCode (.error e)).2 =
      "Validation node timed out. Manual review highly recommended.") ∧
    (∀ g config input s e e2 response,
      (trimL input.data).isEmpty = false → s.isProcessing = false →
      g.researchOutcome = .error e → g.validateOutcome = .error e2 →
      g.conductOutcome = .ok response →
      ∃ m, (handleSendMessage g config input s).1.messages =
          s.messages ++ [⟨.user, input, none⟩, m] ∧ m.role = .assistant) := by
  refine ⟨fun e query => rfl, fun e => rfl, ?_⟩
  intro g config input s e e2 response hin hproc _hr _hv hok
  exact ⟨_, by rw [(handleSendMessage_ok_char g config input s response hin hproc hok).1], rfl⟩

/-- Witness for `degraded_fallback_spec`: both degraded results at
concrete errors, and a completed turn on a research-matching input whose
research and validation transports fail. -/
theorem degraded_fallback_spec_witness :
    ((TrinityService.research (.error "offline") "find docs").2 =
      ("Research swarm was unable to reach the web. Proceeding with internal knowledge base.",
       [])) ∧
    ((TrinityService.validateCode (.error "offline")).2 =
      "Validation node timed out. Manual review highly recommended.") ∧
    (∃ m, (handleSendMessage (degradedGateway "All done.") sampleConfig "find docs"
        sampleState).1.messages =
        sampleState.messages ++ [⟨.user, "find docs", none⟩, m] ∧ m.role = .assistant) :=
  ⟨degraded_fallback_spec.1 "offline" "find docs",
   degraded_fallback_spec.2.1 "offline",
   degraded_fallback_spec.2.2 (degradedGateway "All done.") sampleConfig "find docs"
     sampleState "offline" "offline" "All done." (by decide) rfl rfl rfl rfl⟩

end Trinity

namespace Trinity

/-- C5: a turn on an input matching the research keyword heuristic issues
exactly one `groundedSearch` (research) call and it immediately precedes
the single `converse` (conduct) call; a turn on a non-matching input
issues no research call at all. -/
theorem research_gating_spec :
    (∀ g config input s, needsResearch input = false →
      ((handleSendMessage g config input s).2.map CallEvent.kind).count CallKind.research
        = 0) ∧
    (∀ g config input s, needsResearch input = true →
      (trimL input.data).isEmpty = false → s.isProcessing = false →
      ((handleSendMessage g config input s).2.map CallEvent.kind).count CallKind.research
          = 1 ∧
      ((handleSendMessage g config input s).2.map CallEvent.kind).count CallKind.conduct
          = 1 ∧
      ((handleSendMessage g config input s).2.map CallEvent.kind).take 2
          = [CallKind.research, CallKind.conduct]) := by
  constructor
  · intro g config input s hnr
    by_cases hin : (trimL input.data).isEmpty = true
    · rw [handleSendMessage_noop g config input s (Or.inl hin)]
      rfl
    · by_cases hproc : s.isProcessing = true
      · rw [handleSendMessage_noop g config input s (Or.inr hproc)]
        rfl
      · rw [handleSendMessage_events_char g config input s
            (Bool.eq_false_iff.mpr hin) (Bool.eq_false_iff.mpr hproc)]
        unfold researchStep
        rw [hnr]
        cases g.conductOutcome with
        | error e => simp [CallEvent.kind]
        | ok response =>
          cases hp : parseProposalL response.data <;> simp [hp, CallEvent.kind]
  · intro g config input s hnr hin hproc
    rw [handleSendMessage_events_char g config input s hin hproc]
    unfold researchStep
    rw [hnr]
    cases g.conductOutcome with
    | error e => simp [CallEvent.kind]
    | ok response =>
      cases hp : parseProposalL response.data <;> simp [hp, CallEvent.kind]

/-- Witness for `research_gating_spec`: a matching input ("find docs")
yields the trace research-then-conduct; a non-matching input ("hello")
yields no research call. -/
theorem research_gating_spec_witness :
    (((handleSendMessage (okGateway "done") sampleConfig "hello" sampleState).2.map
        CallEvent.kind).count CallKind.research = 0) ∧
    (((handleSendMessage (okGateway "done") sampleConfig "find docs" sampleState).2.map
        CallEvent.kind).take 2 = [CallKind.research, CallKind.conduct]) :=
  ⟨research_gating_spec.1 (okGateway "done") sampleConfig "hello" sampleState (by decide),
   (research_gating_spec.2 (okGateway "done") sampleConfig "find docs" sampleState
      (by decide) (by decide) rfl).2.2⟩

end Trinity

namespace Trinity

/-- C3 (amended): discarding a pending proposal (Discard Artifact button
and modal close button both run only `setPendingProposal(null)`) clears
exactly the pending proposal; the validation report — contrary to the
claim as frozen — and the files, chat messages, activity log, research
sources and processing flag are all left unchanged.
`discard_clears_validation_report_false` refutes the frozen claim's
report-clearing part. -/
theorem discard_clears_only_pending (s : ViewState) :
    (discardProposal s).pendingProposal = none ∧
    (discardProposal s).validationReport = s.validationReport ∧
    (discardProposal s).project.files = s.project.files ∧
    (discardProposal s).messages = s.messages ∧
    (discardProposal s).activity = s.activity ∧
    (discardProposal s).researchSources = s.researchSources ∧
    (discardProposal s).isProcessing = s.isProcessing :=
  ⟨rfl, rfl, rfl, rfl, rfl, rfl, rfl⟩

/-- Counterexample to C3 as frozen: discarding from a concrete state with
a pending proposal and a present validation report leaves the report in
place instead of clearing it. -/
theorem discard_clears_validation_report_false :
    ¬ ((discardProposal samplePendingState).validationReport = none) := by
  decide

/-- C1: `approveProposal` upserts by file name.  When some file at index
`i` bears the proposal's name (names being unique per the data-model
invariant), the result is exactly `files.set i newFile` — the file is
replaced in place and every other entry is untouched; when no file bears
the name, the result is exactly `files ++ [newFile]` — one appended file
with all existing entries untouched. -/
theorem approve_upsert_spec (files : List ProjectFile) (p : CodeProposal)
    (hnd : (files.map ProjectFile.name).Nodup) :
    (∀ i (hi : i < files.length), files[i].name = p.fileName →
      approveFiles files p =
        files.set i ⟨p.fileName, p.content, languageOf p.fileName⟩) ∧
    ((∀ f ∈ files, f.name ≠ p.fileName) →
      approveFiles files p = files ++ [⟨p.fileName, p.content, languageOf p.fileName⟩]) := by
  constructor
  · intro i hi hname
    have hfind : files.findIdx? (fun f => f.name == p.fileName) = some i := by
      rw [List.findIdx?_eq_some_iff_getElem]
      refine ⟨hi, by simp [hname], ?_⟩
      intro j hji
      simp only [Bool.not_eq_true, beq_eq_false_iff_ne, ne_eq]
      intro heq
      have hj : j < files.length := Nat.lt_trans hji hi
      have hmap : (files.map ProjectFile.name).get ⟨j, by simpa using hj⟩ =
          (files.map ProjectFile.name).get ⟨i, by simpa using hi⟩ := by
        simp [hname, heq]
      have h2 := (List.Nodup.get_inj_iff hnd).mp hmap
      have hji2 : j = i := congrArg Fin.val h2
      omega
    simp [approveFiles, hfind]
  · intro hnone
    have hfind : files.findIdx? (fun f => f.name == p.fileName) = none := by
      rw [List.findIdx?_eq_none_iff]
      intro f hf
      simpa using hnone f hf
    simp [approveFiles, hfind]

/-- Witness for `approve_upsert_spec`: replacing "main.ts" in a two-file
workspace, and appending "new.css" to the same workspace. -/
theorem approve_upsert_spec_witness :
    (approveFiles [⟨"main.ts", "let a = 1;", "ts"⟩, ⟨"doc.md", "hi", "md"⟩]
        ⟨"main.ts", "let a = 2;", "replace"⟩ =
      [⟨"main.ts", "let a = 2;", "ts"⟩, ⟨"doc.md", "hi", "md"⟩]) ∧
    (approveFiles [⟨"main.ts", "let a = 1;", "ts"⟩, ⟨"doc.md", "hi", "md"⟩]
        ⟨"new.css", "body", "add"⟩ =
      [⟨"main.ts", "let a = 1;", "ts"⟩, ⟨"doc.md", "hi", "md"⟩,
       ⟨"new.css", "body", "css"⟩]) := by
  constructor
  · have h := (approve_upsert_spec
      [⟨"main.ts", "let a = 1;", "ts"⟩, ⟨"doc.md", "hi", "md"⟩]
      ⟨"main.ts", "let a = 2;", "replace"⟩ (by decide)).1 0 (by decide) rfl
    rw [h]
    rfl
  · have h := (approve_upsert_spec
      [⟨"main.ts", "let a = 1;", "ts"⟩, ⟨"doc.md", "hi", "md"⟩]
      ⟨"new.css", "body", "add"⟩ (by decide)).2 (by decide)
    rw [h]
    rfl

end Trinity

namespace Trinity

/-! ### Lemmas about `jsSplit` and the language tag (C10) -/

theorem jsSplit_ne_nil (sep : Char) (l : List Char) : jsSplit sep l ≠ [] := by
  cases l with
  | nil => simp [jsSplit]
  | cons c rest =>
    simp only [jsSplit]
    split
    · simp
    · split <;> simp

theorem takeWhile_append_of_neg {p : Char → Bool} {l₁ l₂ : List Char}
    (h : ∃ a ∈ l₁, p a = false) :
    (l₁ ++ l₂).takeWhile p = l₁.takeWhile p := by
  rw [List.takeWhile_append, if_neg]
  intro hlen
  obtain ⟨a, ha, hpa⟩ := h
  have hself : l₁.takeWhile p = l₁ :=
    ( List.takeWhile_prefix p).eq_of_length hlen
  have := List.takeWhile_eq_self_iff.mp hself a ha
  simp [hpa] at this

theorem jsSplit_not_mem (sep : Char) (l : List Char) (h : sep ∉ l) :
    jsSplit sep l = [l] := by
  induction l with
  | nil => rfl
  | cons c rest ih =>
    have hc : ¬ c = sep := fun e => h (e ▸ List.mem_cons_self c rest)
    have hrest : sep ∉ rest := fun m => h (List.mem_cons_of_mem _ m)
    simp only [jsSplit]
    rw [if_neg hc, ih hrest]

theorem jsSplit_length_ge2 (sep : Char) (l : List Char) (h : sep ∈ l) :
    2 ≤ (jsSplit sep l).length := by
  induction l with
  | nil => cases h
  | cons c rest ih =>
    simp only [jsSplit]
    by_cases hc : c = sep
    · rw [if_pos hc]
      have := List.length_pos.mpr (jsSplit_ne_nil sep rest)
      simp only [List.length_cons]
      omega
    · rw [if_neg hc]
      have hrest : sep ∈ rest := by
        rcases List.mem_cons.mp h with h1 | h1
        · exact absurd h1.symm hc
        · exact h1
      have h2 := ih hrest
      cases hr : jsSplit sep rest with
      | nil => exact absurd hr (jsSplit_ne_nil sep rest)
      | cons hd t =>
        rw [hr] at h2
        simp only [List.length_cons] at h2 ⊢
        omega

/-- The last piece of the JavaScript split equals the longest dot-free
suffix: the substring after the last separator, or the whole list when
the separator does not occur. -/
theorem jsSplit_getLastD (sep : Char) (l : List Char) :
    (jsSplit sep l).getLastD [] =
      (l.reverse.takeWhile (fun c => c != sep)).reverse := by
  induction l with
  | nil => rfl
  | cons c rest ih =>
    simp only [jsSplit, List.reverse_cons]
    by_cases hc : c = sep
    · subst hc
      rw [if_pos rfl]
      rw [List.getLastD_cons]
      by_cases hm : c ∈ rest
      · rw [takeWhile_append_of_neg ⟨c, List.mem_reverse.mpr hm, by simp⟩]
        exact ih
      · rw [jsSplit_not_mem c rest hm]
        rw [List.takeWhile_append_of_pos
          (by intro a ha; simp [List.mem_reverse] at ha; simp; exact fun e => hm (e ▸ ha))]
        simp
    · rw [if_neg hc]
      by_cases hm : sep ∈ rest
      · have h2 := jsSplit_length_ge2 sep rest hm
        cases hr : jsSplit sep rest with
        | nil => exact absurd hr (jsSplit_ne_nil sep rest)
        | cons hd t =>
          rw [hr] at h2
          simp only [List.length_cons] at h2
          have ht : t ≠ [] := by
            intro e
            rw [e] at h2
            simp at h2
          rw [hr] at ih
          rw [List.getLastD_cons] at ih ⊢
          have hdef : ∀ d₁ d₂ : List Char, t.getLastD d₁ = t.getLastD d₂ := by
            intro d₁ d₂
            rw [List.getLastD_eq_getLast?, List.getLastD_eq_getLast?]
            cases hl : t.getLast? with
            | none => exact absurd (List.getLast?_eq_none_iff.mp hl) ht
            | some x => rfl
          rw [hdef (c :: hd) hd, ih]
          rw [takeWhile_append_of_neg ⟨sep, List.mem_reverse.mpr hm, by simp⟩]
      · rw [jsSplit_not_mem sep rest hm]
        simp only [List.getLastD_cons, List.getLastD_nil]
        have hall : ∀ a ∈ rest.reverse ++ [c], (fun x => x != sep) a = true := by
          intro a ha
          rcases List.mem_append.mp ha with ha | ha
        
          · have := List.mem_reverse.mp ha
            simp only [bne_iff_ne, ne_eq]
            exact fun e => hm (e ▸ this)
          · simp only [List.mem_singleton] at ha
            subst ha
            simp only [bne_iff_ne, ne_eq]
            exact hc
        rw [List.takeWhile_eq_self_iff.mpr hall]
        simp

end Trinity

namespace Trinity

/-- C10 (amended): the language tag is the substring of the fileName after
its last dot (the whole fileName when it has no dot — both cases are the
longest dot-free suffix), except that whenever that candidate is empty —
the empty fileName, but also any fileName ending in a dot — the tag falls
back to "txt".  The claim as frozen allows the "txt" fallback only for
the empty fileName; `language_tag_claim_false` refutes it at "a.". -/
theorem languageOf_spec (f : String) :
    languageOf f =
      (if (f.data.reverse.takeWhile (fun c => c != '.')).reverse = [] then "txt"
       else String.mk ((f.data.reverse.takeWhile (fun c => c != '.')).reverse)) := by
  simp only [languageOf, jsSplit_getLastD]

/-- Counterexample to C10 as frozen: for the non-empty fileName "a."
(whose substring after the last dot is empty), the code produces "txt",
not what the claimed rule prescribes. -/
theorem language_tag_claim_false :
    ¬ (languageOf "a." = claimedLanguageTag "a.") := by
  decide

end Trinity

namespace Trinity

/-! ### Lemmas about `splitFirst` and the fenced-block capture (C4) -/

theorem splitFirst_self_append (pat x : List Char) :
    splitFirst pat (pat ++ x) = some ([], x) := by
  cases pat with
  | nil =>
    cases x with
    | nil => rfl
    | cons c rest => simp [splitFirst, List.isPrefixOf]
  | cons q p' =>
    show splitFirst (q :: p') ((q :: p') ++ x) = some ([], x)
    rw [List.cons_append]
    simp only [splitFirst]
    rw [if_pos]
    · rw [← List.cons_append, List.drop_left]
    · rw [ List.isPrefixOf_iff_prefix, ← List.cons_append]
      exact List.prefix_append _ _

theorem prefix_of_prefix_append {p s x : List Char}
    (h : p <+: s ++ x) (hlen : p.length ≤ s.length) : p <+: s := by
  induction p generalizing s with
  | nil => exact List.nil_prefix
  | cons a p' ih =>
    cases s with
    | nil => simp at hlen
    | cons b s' =>
      rw [List.cons_append] at h
      obtain ⟨rfl, h'⟩ := List.cons_prefix_cons.mp h
      simp only [List.length_cons, Nat.add_le_add_iff_right] at hlen
      exact List.cons_prefix_cons.mpr ⟨rfl, ih h' hlen⟩

theorem splitFirst_append_extend (pat a x : List Char)
    (h : splitFirst pat (a ++ pat) = some (a, [])) :
    splitFirst pat (a ++ pat ++ x) = some (a, x) := by
  induction a with
  | nil =>
    simpa using splitFirst_self_append pat x
  | cons c a' ih =>
    rw [List.cons_append] at h
    simp only [splitFirst] at h
    by_cases hpre : pat.isPrefixOf (c :: (a' ++ pat)) = true
    · rw [if_pos hpre] at h
      simp at h
    · rw [if_neg hpre] at h
      obtain ⟨b, hb, hfb⟩ := Option.map_eq_some'.mp h
      obtain ⟨hb1, hb2⟩ := Prod.mk.injEq .. ▸ hfb
      have hb1' : b.1 = a' := by
        have := congrArg List.tail hb1
        simpa using this
      have hbeq : b = (a', []) := Prod.ext hb1' hb2
      rw [hbeq] at hb
      have ihx := ih hb
      show splitFirst pat ((c :: a') ++ pat ++ x) = some (c :: a', x)
      rw [List.cons_append, List.cons_append]
      simp only [splitFirst]
      rw [if_neg]
      · rw [ihx]
        rfl
      · intro hcontra
        apply hpre
        rw [ List.isPrefixOf_iff_prefix] at hcontra ⊢
        have hshape : c :: (a' ++ pat ++ x) = (c :: (a' ++ pat)) ++ x := by
          simp
        rw [hshape] at hcontra
        refine prefix_of_prefix_append hcontra ?_
        by_contra hgt
        push_neg at hgt
        have := hcontra.length_le
        simp only [List.length_append, List.length_cons] at this hgt ⊢
        omega

theorem splitFirst_eq_none (pat s : List Char) (h : containsSub pat s = false) :
    splitFirst pat s = none := by
  induction s with
  | nil =>
    simp only [containsSub, List.isEmpty_iff] at h
    simp only [splitFirst]
    rw [if_neg]
    intro e
    rw [e] at h
    simp at h
  | cons c rest ih =>
    simp only [containsSub, Bool.or_eq_false_iff] at h
    simp only [splitFirst]
    rw [if_neg (by simp [h.1]), ih h.2]
    rfl

theorem extractBlock_decomp (pre body post : List Char)
    (hpre : splitFirst fenceOpen (pre ++ fenceOpen) = some (pre, []))
    (hbody : splitFirst fenceClose (body ++ fenceClose) = some (body, [])) :
    extractBlock (pre ++ fenceOpen ++ body ++ fenceClose ++ post) = some body := by
  have h1 := splitFirst_append_extend fenceOpen pre (body ++ fenceClose ++ post) hpre
  have h2 := splitFirst_append_extend fenceClose body post hbody
  rw [show pre ++ fenceOpen ++ body ++ fenceClose ++ post
      = pre ++ fenceOpen ++ (body ++ fenceClose ++ post) by simp [List.append_assoc]]
  simp only [extractBlock, h1, h2]

end Trinity

namespace Trinity

/-- C4: behaviour of the proposal parser.  Decomposing a response as
`pre ++ fenceOpen ++ body ++ fenceClose ++ post` — the side conditions
pin the opening tag ending at `pre` as the leftmost one and the closing
tag after `body` as the nearest one, so `body` is exactly the first
fenced block's capture even if `post` holds further blocks — the parser
(1) on a well-formed body whose action is "propose_code" yields exactly
the block's `fileName`/`content`/`description` property values;
(2) on a body `JSON.parse` rejects, yields no proposal;
(3) on a well-formed body with any other action, yields no proposal;
(4) on a response with no opening tag, yields no proposal; and
(5) on a response whose opening tag is never followed by a closing tag,
yields no proposal.  The parser is a total function, so no case can
raise an error. -/
theorem proposal_parser_spec :
    (∀ pre body post j,
      splitFirst fenceOpen (pre ++ fenceOpen) = some (pre, []) →
      splitFirst fenceClose (body ++ fenceClose) = some (body, []) →
      jsonParse body = some j → actionIsPropose j = true →
      parseProposalL (pre ++ fenceOpen ++ body ++ fenceClose ++ post) =
        some ⟨j.lookup fileNameKey, j.lookup contentKey, j.lookup descriptionKey⟩) ∧
    (∀ pre body post,
      splitFirst fenceOpen (pre ++ fenceOpen) = some (pre, []) →
      splitFirst fenceClose (body ++ fenceClose) = some (body, []) →
      jsonParse body = none →
      parseProposalL (pre ++ fenceOpen ++ body ++ fenceClose ++ post) = none) ∧
    (∀ pre body post j,
      splitFirst fenceOpen (pre ++ fenceOpen) = some (pre, []) →
      splitFirst fenceClose (body ++ fenceClose) = some (body, []) →
      jsonParse body = some j → actionIsPropose j = false →
      parseProposalL (pre ++ fenceOpen ++ body ++ fenceClose ++ post) = none) ∧
    (∀ s, containsSub fenceOpen s = false → parseProposalL s = none) ∧
    (∀ s pre rest, splitFirst fenceOpen s = some (pre, rest) →
      containsSub fenceClose rest = false → parseProposalL s = none) := by
  refine ⟨?_, ?_, ?_, ?_, ?_⟩
  · intro pre body post j hpre hbody hjson haction
    simp only [parseProposalL, extractBlock_decomp pre body post hpre hbody, hjson, haction,
      if_true]
  · intro pre body post hpre hbody hjson
    simp only [parseProposalL, extractBlock_decomp pre body post hpre hbody, hjson]
  · intro pre body post j hpre hbody hjson haction
    simp only [parseProposalL, extractBlock_decomp pre body post hpre hbody, hjson, haction,
      Bool.false_eq_true, if_false]
  · intro s h
    simp only [parseProposalL, extractBlock, splitFirst_eq_none fenceOpen s h]
  · intro s pre rest h1 h2
    simp only [parseProposalL, extractBlock, h1, splitFirst_eq_none fenceClose rest h2]

end Trinity

namespace Trinity

set_option maxRecDepth 80000 in
/-- Witness for `proposal_parser_spec` at concrete responses: a
well-formed propose_code block (yielding exactly its three fields), a
non-JSON block, a wrong-action block, a response with no block, and a
response with an unterminated block. -/
theorem proposal_parser_spec_witness :
    (parseProposalL ("Sure.\n".data ++ fenceOpen ++ blockBody ++ fenceClose ++ "\nDone.".data)
      = some ⟨blockJson.lookup fileNameKey, blockJson.lookup contentKey,
              blockJson.lookup descriptionKey⟩) ∧
    (parseProposalL ("Hi.\n".data ++ fenceOpen ++ "not json".data ++ fenceClose ++ []) = none) ∧
    (parseProposalL ([] ++ fenceOpen ++ otherBody ++ fenceClose ++ []) = none) ∧
    (parseProposalL "no fenced block here".data = none) ∧
    (parseProposalL ("A ".data ++ fenceOpen ++ "dangling".data) = none) :=
  ⟨proposal_parser_spec.1 "Sure.\n".data blockBody "\nDone.".data blockJson
     (by decide) (by decide) (by rfl) (by rfl),
   proposal_parser_spec.2.1 "Hi.\n".data "not json".data []
     (by decide) (by decide) (by rfl),
   proposal_parser_spec.2.2.1 [] otherBody [] otherJson
     (by decide) (by decide) (by rfl) (by rfl),
   proposal_parser_spec.2.2.2.1 "no fenced block here".data (by decide),
   proposal_parser_spec.2.2.2.2 ("A ".data ++ fenceOpen ++ "dangling".data)
     "A ".data "dangling".data (by decide) (by decide)⟩

end Trinity
